import Mathlib

/-!
Verification development for the arbitrage-bucked repository.

The definitions below are a shallow embedding of the Python sources:

* app/schema/models.py   — data model (OutcomeData, NormalizedMarket, MatchedEvent, filters)
* app/engine/arbitrage.py — ArbitrageEngine (arbitrage math, best-odds selection, stakes,
  middle detection, event filters, failure handling)
* app/match/matcher.py    — EventMatcher (name normalization, clustering, temporal guard,
  bookmaker-coverage filter)

Conventions of the embedding:

* Python floats are modelled as rationals (ℚ); Python round(x, n) is modelled by
  pyRound n, rounding to n decimal places.
* Python dicts are modelled as insertion-ordered association lists
  (List (Key × Value)); dict iteration order is list order.
* datetimes are modelled as integers (seconds on an absolute axis); timedeltas as
  integer numbers of seconds.
* Python exceptions raised by a sub-computation are modelled by Except / Option results.
-/

/-- Bookmaker identifiers (schema/models.py, class BookmakerName). -/
inductive BookmakerName where
  | mostbet | stake | leon | parimatch | onexbet | onewin
  deriving DecidableEq, Repr

/-- Outcome observation (schema/models.py, class OutcomeData): outcome name, decimal
odds, source bookmaker, bet URL, last-seen timestamp (seconds). -/
structure OutcomeData where
  name : String
  odds : ℚ
  bookmaker : BookmakerName
  url : String
  lastSeen : ℤ
  deriving DecidableEq, Repr

/-- Python round(x, n) over the rationals: scale by 10^n, round to the nearest
integer, unscale.  (Python rounds ties on binary floats; ties never occur in the
statements below, so the half-up round of Mathlib is an adequate model.) -/
def pyRound (n : ℕ) (q : ℚ) : ℚ := ((round (q * 10 ^ n) : ℤ) : ℚ) / 10 ^ n

/-- A Python Dict[str, OutcomeData] as an insertion-ordered association list. -/
abbrev OutcomeDict := List (String × OutcomeData)

/-- Sum of per-leg implied probabilities 1/odds over an outcome dict
(the total_implied_prob of ArbitrageEngine._calculate_arbitrage). -/
def impliedTotal (bestOdds : OutcomeDict) : ℚ :=
  (bestOdds.map (fun p => 1 / p.2.odds)).sum

/-- ArbitrageEngine._calculate_arbitrage (engine/arbitrage.py lines 189-217):
requires at least two legs and every leg's odds strictly above 1.0; computes the
total implied probability; returns None when the total is at least 1.0; otherwise
returns (arb_percentage, profit_percentage), both rounded to 4 decimal places.
The source iterates the legs and returns None at the first odds ≤ 1.0; the `any`
test below is that same check. -/
def calculateArbitrage (bestOdds : OutcomeDict) : Option (ℚ × ℚ) :=
  if bestOdds.length < 2 then none
  else if bestOdds.any (fun p => p.2.odds ≤ 1) then none
  else if 1 ≤ impliedTotal bestOdds then none
  else some (pyRound 4 (impliedTotal bestOdds * 100),
             pyRound 4 ((1 / impliedTotal bestOdds - 1) * 100))

/-- Concrete two-leg market used as evaluation input: Home at odds 2.0 (mostbet),
Away at odds 4.0 (stake). -/
def c1ex : OutcomeDict :=
  [("Home", ⟨"Home", 2, .mostbet, "u1", 0⟩), ("Away", ⟨"Away", 4, .stake, "u2", 0⟩)]

/-- C1: whenever _calculate_arbitrage reports an opportunity, the total implied
probability (the sum over legs of 1/odds) is strictly below 1, the reported
arb_percentage equals total·100 rounded to 4 decimals and the profit_percentage
equals (1/total − 1)·100 rounded to 4 decimals; and a market whose total implied
probability is exactly 1 is never reported. -/
theorem c1_arbitrage_math (bestOdds : OutcomeDict) :
    (∀ a p : ℚ, calculateArbitrage bestOdds = some (a, p) →
      impliedTotal bestOdds < 1 ∧
      a = pyRound 4 (impliedTotal bestOdds * 100) ∧
      p = pyRound 4 ((1 / impliedTotal bestOdds - 1) * 100)) ∧
    (impliedTotal bestOdds = 1 → calculateArbitrage bestOdds = none) := by
  constructor
  · intro a p h
    unfold calculateArbitrage at h
    split at h
    · exact absurd h (by simp)
    · split at h
      · exact absurd h (by simp)
      · split at h
        · exact absurd h (by simp)
        · rename_i h1 h2 h3
          obtain ⟨ha, hp⟩ := Prod.mk.injEq _ _ _ _ ▸ Option.some.injEq _ _ ▸ h
          exact ⟨lt_of_not_le (fun hle => h3 hle), ha.symm, hp.symm⟩
  · intro h
    unfold calculateArbitrage
    split
    · rfl
    · split
      · rfl
      · rw [if_pos (le_of_eq h.symm)]

/-- Witness for C1 at the concrete input c1ex (total = 3/4, arb 75%, profit 33.3333%). -/
theorem c1_arbitrage_math_witness :
    impliedTotal c1ex < 1 ∧
    (75 : ℚ) = pyRound 4 (impliedTotal c1ex * 100) ∧
    (333333 / 10000 : ℚ) = pyRound 4 ((1 / impliedTotal c1ex - 1) * 100) :=
  (c1_arbitrage_math c1ex).1 75 (333333 / 10000)
    (by norm_num [calculateArbitrage, impliedTotal, c1ex, pyRound, round_eq])

/-- Per-leg stake record (schema/models.py, class StakeCalculation). -/
structure StakeCalculation where
  outcomeName : String
  bookmaker : BookmakerName
  stakeAmount : ℚ
  potentialProfit : ℚ
  url : String
  deriving DecidableEq, Repr

/-- ArbitrageEngine._calculate_stakes (engine/arbitrage.py lines 238-268): the
total inverse odds is the same sum as impliedTotal; each leg gets
stake = bankroll · (1/odds)/total, potential return = stake · odds, potential
profit = return − bankroll; stake and profit are stored rounded to 2 decimals. -/
def calculateStakes (bestOdds : OutcomeDict) (bankroll : ℚ) : List StakeCalculation :=
  bestOdds.map (fun p =>
    { outcomeName := p.1
      bookmaker := p.2.bookmaker
      stakeAmount := pyRound 2 (bankroll * ((1 / p.2.odds) / impliedTotal bestOdds))
      potentialProfit :=
        pyRound 2 (bankroll * ((1 / p.2.odds) / impliedTotal bestOdds) * p.2.odds - bankroll)
      url := p.2.url })

/-- Rounding to n decimal places moves a rational by at most half a unit in the
last place. -/
theorem abs_pyRound_sub_le (n : ℕ) (q : ℚ) : |pyRound n q - q| ≤ 1 / (2 * 10 ^ n) := by
  have hpos : (0 : ℚ) < 10 ^ n := by positivity
  have h : |(round (q * 10 ^ n) : ℚ) - q * 10 ^ n| ≤ 1 / 2 := by
    rw [abs_sub_comm]; exact abs_sub_round (q * 10 ^ n)
  have hrw : pyRound n q - q = ((round (q * 10 ^ n) : ℚ) - q * 10 ^ n) / 10 ^ n := by
    rw [pyRound]; field_simp; ring
  rw [hrw, abs_div, abs_of_pos hpos, div_le_div_iff₀ hpos (by positivity)]
  calc |(round (q * 10 ^ n) : ℚ) - q * 10 ^ n| * (2 * 10 ^ n)
      ≤ (1 / 2) * (2 * 10 ^ n) := by
        exact mul_le_mul_of_nonneg_right h (by positivity)
    _ = 1 * 10 ^ n := by ring

/-- Summed rounding error over a list is at most length · (half a ulp). -/
theorem list_sum_pyRound_close {α : Type} (n : ℕ) (f : α → ℚ) (l : List α) :
    |(l.map (fun a => pyRound n (f a))).sum - (l.map f).sum| ≤
      l.length * (1 / (2 * 10 ^ n)) := by
  induction l with
  | nil => simp
  | cons a t ih =>
    simp only [List.map_cons, List.sum_cons, List.length_cons]
    have h1 : pyRound n (f a) + (t.map (fun a => pyRound n (f a))).sum -
        (f a + (t.map f).sum) =
        (pyRound n (f a) - f a) +
          ((t.map (fun a => pyRound n (f a))).sum - (t.map f).sum) := by ring
    rw [h1]
    calc |(pyRound n (f a) - f a) +
            ((t.map (fun a => pyRound n (f a))).sum - (t.map f).sum)|
        ≤ |pyRound n (f a) - f a| +
            |(t.map (fun a => pyRound n (f a))).sum - (t.map f).sum| := abs_add _ _
      _ ≤ 1 / (2 * 10 ^ n) + t.length * (1 / (2 * 10 ^ n)) :=
          add_le_add (abs_pyRound_sub_le n (f a)) ih
      _ = (t.length + 1) * (1 / (2 * 10 ^ n)) := by ring
      _ = ((t.length + 1 : ℕ) : ℚ) * (1 / (2 * 10 ^ n)) := by push_cast; ring

/-- The total implied probability of a dict with all odds above 1 is positive. -/
theorem impliedTotal_pos (bestOdds : OutcomeDict)
    (hodds : ∀ p ∈ bestOdds, 1 < p.2.odds) (hne : bestOdds ≠ []) :
    0 < impliedTotal bestOdds := by
  apply List.sum_pos
  · intro x hx
    obtain ⟨p, hp, rfl⟩ := List.mem_map.mp hx
    have := hodds p hp
    positivity
  · simpa using hne

/-- The exact (pre-rounding) stakes sum to the bankroll. -/
theorem exact_stakes_sum (bestOdds : OutcomeDict) (B : ℚ)
    (hodds : ∀ p ∈ bestOdds, 1 < p.2.odds) (hne : bestOdds ≠ []) :
    (bestOdds.map (fun p => B * ((1 / p.2.odds) / impliedTotal bestOdds))).sum = B := by
  have hT : 0 < impliedTotal bestOdds := impliedTotal_pos bestOdds hodds hne
  have hrw : (bestOdds.map (fun p => B * ((1 / p.2.odds) / impliedTotal bestOdds))) =
      (bestOdds.map (fun p => (B / impliedTotal bestOdds) * (1 / p.2.odds))) := by
    apply List.map_congr_left
    intro p _
    ring
  rw [hrw, List.sum_map_mul_left]
  rw [show (bestOdds.map fun p => 1 / p.2.odds).sum = impliedTotal bestOdds from rfl]
  field_simp

/-- C3: per leg the stored stake is bankroll·(1/odds)/total (rounded to 2
decimals); the stored stakes sum to the bankroll within the accumulated rounding
tolerance; and every leg's stored potential profit is one and the same rounded
value, the rounding of the exact guaranteed profit B·(1/total − 1), which agrees
with B·profit_percentage/100 within rounding tolerance. -/
theorem c3_stake_sizing (bestOdds : OutcomeDict) (B : ℚ)
    (hodds : ∀ p ∈ bestOdds, 1 < p.2.odds) (hne : bestOdds ≠ []) (hB : 0 ≤ B) :
    ((calculateStakes bestOdds B).map (fun s => s.stakeAmount) =
       bestOdds.map (fun p => pyRound 2 (B * ((1 / p.2.odds) / impliedTotal bestOdds)))) ∧
    |((calculateStakes bestOdds B).map (fun s => s.stakeAmount)).sum - B| ≤
       bestOdds.length / 200 ∧
    (∀ s ∈ calculateStakes bestOdds B,
       s.potentialProfit = pyRound 2 (B * (1 / impliedTotal bestOdds - 1)) ∧
       |s.potentialProfit - B * pyRound 4 ((1 / impliedTotal bestOdds - 1) * 100) / 100| ≤
         1 / 200 + B / 2000000) := by
  have hT : 0 < impliedTotal bestOdds := impliedTotal_pos bestOdds hodds hne
  have hmap : (calculateStakes bestOdds B).map (fun s => s.stakeAmount) =
      bestOdds.map (fun p => pyRound 2 (B * ((1 / p.2.odds) / impliedTotal bestOdds))) := by
    simp [calculateStakes, List.map_map]
  refine ⟨hmap, ?_, ?_⟩
  · rw [hmap]
    have hclose := list_sum_pyRound_close 2
      (fun p => B * ((1 / p.2.odds) / impliedTotal bestOdds)) bestOdds
    rw [exact_stakes_sum bestOdds B hodds hne] at hclose
    calc |(bestOdds.map (fun p =>
            pyRound 2 (B * ((1 / p.2.odds) / impliedTotal bestOdds)))).sum - B|
        ≤ bestOdds.length * (1 / (2 * 10 ^ 2)) := hclose
      _ = bestOdds.length / 200 := by ring
  · intro s hs
    obtain ⟨p, hp, rfl⟩ := List.mem_map.mp hs
    have ho : (1 : ℚ) < p.2.odds := hodds p hp
    have ho0 : p.2.odds ≠ 0 := by linarith
    have hT0 : impliedTotal bestOdds ≠ 0 := ne_of_gt hT
    have hexact : B * ((1 / p.2.odds) / impliedTotal bestOdds) * p.2.odds - B =
        B * (1 / impliedTotal bestOdds - 1) := by
      field_simp
      ring
    constructor
    · simp only [hexact]
    · simp only [hexact]
      have h2 : |pyRound 2 (B * (1 / impliedTotal bestOdds - 1)) -
          B * (1 / impliedTotal bestOdds - 1)| ≤ 1 / 200 := by
        calc |pyRound 2 (B * (1 / impliedTotal bestOdds - 1)) -
               B * (1 / impliedTotal bestOdds - 1)| ≤ 1 / (2 * 10 ^ 2) :=
              abs_pyRound_sub_le 2 _
          _ = 1 / 200 := by norm_num
      have h4 : |B * (1 / impliedTotal bestOdds - 1) -
          B * pyRound 4 ((1 / impliedTotal bestOdds - 1) * 100) / 100| ≤ B / 2000000 := by
        have hrw : B * (1 / impliedTotal bestOdds - 1) -
            B * pyRound 4 ((1 / impliedTotal bestOdds - 1) * 100) / 100 =
            (B / 100) * (((1 / impliedTotal bestOdds - 1) * 100) -
              pyRound 4 ((1 / impliedTotal bestOdds - 1) * 100)) := by ring
        rw [hrw, abs_mul, abs_of_nonneg (by positivity : (0:ℚ) ≤ B / 100), abs_sub_comm]
        calc (B / 100) * |pyRound 4 ((1 / impliedTotal bestOdds - 1) * 100) -
               ((1 / impliedTotal bestOdds - 1) * 100)|
            ≤ (B / 100) * (1 / (2 * 10 ^ 4)) := by
              exact mul_le_mul_of_nonneg_left (abs_pyRound_sub_le 4 _) (by positivity)
          _ = B / 2000000 := by ring
      calc |pyRound 2 (B * (1 / impliedTotal bestOdds - 1)) -
             B * pyRound 4 ((1 / impliedTotal bestOdds - 1) * 100) / 100|
          ≤ |pyRound 2 (B * (1 / impliedTotal bestOdds - 1)) -
               B * (1 / impliedTotal bestOdds - 1)| +
            |B * (1 / impliedTotal bestOdds - 1) -
               B * pyRound 4 ((1 / impliedTotal bestOdds - 1) * 100) / 100| := by
              exact abs_sub_le _ _ _
        _ ≤ 1 / 200 + B / 2000000 := add_le_add h2 h4

/-- Configuration defaults used by the engine and matcher (config.py, class Settings). -/
structure Settings where
  fuzzyThreshold : ℚ := 94
  timeToleranceMinutes : ℤ := 15
  minArbPercentage : ℚ := 1 / 2
  minProfitAmount : ℚ := 10
  defaultBankroll : ℚ := 1000
  liveOddsMaxAge : ℤ := 10
  prematchOddsMaxAge : ℤ := 300

/-- Global settings instance with config.py defaults (no environment overrides). -/
def settings : Settings := {}

/-- API filter record (schema/models.py, class ArbitrageFilters); with
use_enum_values the sport and market-type fields carry the enum string values. -/
structure ArbitrageFilters where
  sport : Option String := none
  marketType : Option String := none
  minArbPercentage : Option ℚ := none
  minProfit : Option ℚ := none
  bookmakers : Option (List BookmakerName) := none
  liveOnly : Option Bool := none
  maxStartHours : Option ℤ := none
  bankroll : Option ℚ := none

/-- Pydantic field constraints of ArbitrageFilters (schema/models.py lines 222-233):
min_arb_percentage ≥ 0, min_profit ≥ 0, 0 ≤ max_start_hours ≤ 168, bankroll > 0. -/
def filtersValid (f : ArbitrageFilters) : Bool :=
  (match f.minArbPercentage with | some m => decide (0 ≤ m) | none => true) &&
  (match f.minProfit with | some m => decide (0 ≤ m) | none => true) &&
  (match f.maxStartHours with | some h => decide (0 ≤ h ∧ h ≤ 168) | none => true) &&
  (match f.bankroll with | some b => decide (0 < b) | none => true)

/-- Canonical event (schema/models.py, class NormalizedEvent). -/
structure NormalizedEvent where
  canonicalName : String
  startTime : Option ℤ := none
  sport : Option String := none
  league : Option String := none
  originalNames : List (BookmakerName × String) := []
  isLive : Bool := false

/-- A market line is either textual or numeric (Optional[Union[str, float]]). -/
inductive LineVal where
  | str (s : String)
  | num (q : ℚ)
  deriving DecidableEq, Repr

/-- Market bucket (schema/models.py, class NormalizedMarket): a market type, an
optional line, and outcomes keyed by outcome name. -/
structure NormalizedMarket where
  marketType : String
  line : Option LineVal := none
  outcomes : OutcomeDict := []

/-- NormalizedMarket.add_outcome (schema/models.py lines 106-110): look up the
existing entry under the outcome's name; insert if absent, overwrite (in place,
keeping dict position) only when the new observation is strictly newer. -/
def addOutcome (m : NormalizedMarket) (o : OutcomeData) : NormalizedMarket :=
  { m with outcomes :=
      match m.outcomes.find? (fun kv => kv.1 = o.name) with
      | some existing =>
          if existing.2.lastSeen < o.lastSeen then
            m.outcomes.map (fun kv => if kv.1 = o.name then (kv.1, o) else kv)
          else m.outcomes
      | none => m.outcomes ++ [(o.name, o)] }

/-- Matched event (schema/models.py, class MatchedEvent): a canonical event plus
markets keyed by market key. -/
structure MatchedEvent where
  event : NormalizedEvent
  markets : List (String × NormalizedMarket) := []

/-- Sport component of ArbitrageEngine._passes_event_filters: the Python guard is
"if filters.sport and event.event.sport != filters.sport"; every SportType value
is a nonempty string, so the truthiness test is isSome. -/
def sportFilterOk (f : ArbitrageFilters) (e : MatchedEvent) : Bool :=
  match f.sport with
  | none => true
  | some s => decide (e.event.sport = some s)

/-- Live/prematch component: "if filters.live_only is not None: …". -/
def liveFilterOk (f : ArbitrageFilters) (e : MatchedEvent) : Bool :=
  match f.liveOnly with
  | none => true
  | some b => decide (b = e.event.isLive)

/-- Start-time-horizon component (engine/arbitrage.py lines 73-77): the Python
guard is "if filters.max_start_hours and event.event.start_time", so a
max_start_hours of 0 (falsy) skips the check entirely, as does a missing start
time; otherwise the event passes iff start_time ≤ now + hours. -/
def timeFilterOk (f : ArbitrageFilters) (startTime : Option ℤ) (now : ℤ) : Bool :=
  match f.maxStartHours, startTime with
  | some h, some st => if h = 0 then true else decide (st ≤ now + h * 3600)
  | _, _ => true

/-- ArbitrageEngine._passes_event_filters (engine/arbitrage.py lines 59-79). -/
def passesEventFilters (e : MatchedEvent) (filters : Option ArbitrageFilters)
    (now : ℤ) : Bool :=
  match filters with
  | none => true
  | some f => sportFilterOk f e && liveFilterOk f e && timeFilterOk f e.event.startTime now

/-- C10: max_start_hours = 0 is accepted by the filter model, yet — because the
Python guard tests truthiness rather than None-ness — the start-time-horizon
check is skipped entirely: every event passes the time check whatever its start
time, and the whole event filter degenerates to the sport and live checks. -/
theorem c10_zero_horizon_disables_filter (f : ArbitrageFilters) (e : MatchedEvent)
    (now : ℤ) (h : f.maxStartHours = some 0) (hv : filtersValid f = true) :
    timeFilterOk f e.event.startTime now = true ∧
    passesEventFilters e (some f) now = (sportFilterOk f e && liveFilterOk f e) := by
  have ht : timeFilterOk f e.event.startTime now = true := by
    unfold timeFilterOk
    rw [h]
    match e.event.startTime with
    | none => rfl
    | some st => simp
  refine ⟨ht, ?_⟩
  have hpe : passesEventFilters e (some f) now =
      (sportFilterOk f e && liveFilterOk f e && timeFilterOk f e.event.startTime now) := rfl
  rw [hpe, ht, Bool.and_true]

/-- Witness for C10: a filter with max_start_hours = 0 is valid, and an event
starting 10000 hours from now still passes the event filter. -/
theorem c10_zero_horizon_witness :
    timeFilterOk { maxStartHours := some 0 }
        (MatchedEvent.mk { canonicalName := "E", startTime := some 36000000 } []).event.startTime 0 = true ∧
    passesEventFilters (MatchedEvent.mk { canonicalName := "E", startTime := some 36000000 } [])
        (some { maxStartHours := some 0 }) 0 =
      (sportFilterOk { maxStartHours := some 0 }
          (MatchedEvent.mk { canonicalName := "E", startTime := some 36000000 } []) &&
        liveFilterOk { maxStartHours := some 0 }
          (MatchedEvent.mk { canonicalName := "E", startTime := some 36000000 } [])) :=
  c10_zero_horizon_disables_filter { maxStartHours := some 0 }
    (MatchedEvent.mk { canonicalName := "E", startTime := some 36000000 } []) 0 rfl (by decide)

/-- Python max(iterable, key=lambda x: x.odds) starting from a first element:
Python max keeps the current element on ties, so the first maximal element wins. -/
def pyMaxByOdds (x : OutcomeData) (rest : List OutcomeData) : OutcomeData :=
  rest.foldl (fun best o => if best.odds < o.odds then o else best) x

/-- Grouping step of ArbitrageEngine._get_best_odds_per_outcome (engine/arbitrage.py
lines 166-171): group dict entries by key; keys appear in first-occurrence order,
values in iteration order. -/
def groupByName (outcomes : OutcomeDict) : List (String × List OutcomeData) :=
  outcomes.foldl (fun acc kv =>
    if acc.any (fun g => g.1 = kv.1) then
      acc.map (fun g => if g.1 = kv.1 then (g.1, g.2 ++ [kv.2]) else g)
    else acc ++ [(kv.1, [kv.2])]) []

/-- Bookmaker allow-list step (lines 176-177): the guard is
"if filters and filters.bookmakers", so a missing or empty allow-list (both falsy)
applies no filtering. -/
def applyBookmakerFilter (filters : Option ArbitrageFilters)
    (lst : List OutcomeData) : List OutcomeData :=
  match filters with
  | none => lst
  | some f =>
    match f.bookmakers with
    | none => lst
    | some [] => lst
    | some bs => lst.filter (fun o => decide (o.bookmaker ∈ bs))

/-- Selection loop of _get_best_odds_per_outcome (lines 174-185) over the name
groups, carrying best_odds (in insertion order) and the used_bookmakers set: for
each outcome name, take the available observations whose bookmaker is unused; if
any, pick the highest odds and claim its bookmaker. -/
def bestOddsLoop (filters : Option ArbitrageFilters) :
    List (String × List OutcomeData) → OutcomeDict → List BookmakerName → OutcomeDict
  | [], best, _ => best
  | g :: gs, best, used =>
    let available :=
      (applyBookmakerFilter filters g.2).filter (fun o => !decide (o.bookmaker ∈ used))
    if h : available = [] then bestOddsLoop filters gs best used
    else
      let chosen := pyMaxByOdds (available.head h) available.tail
      bestOddsLoop filters gs (best ++ [(g.1, chosen)]) (chosen.bookmaker :: used)

/-- ArbitrageEngine._get_best_odds_per_outcome (engine/arbitrage.py lines 160-187). -/
def getBestOddsPerOutcome (outcomes : OutcomeDict)
    (filters : Option ArbitrageFilters) : OutcomeDict :=
  bestOddsLoop filters (groupByName outcomes) [] []

/-- The Python max is one of the candidates. -/
theorem pyMaxByOdds_mem (x : OutcomeData) (rest : List OutcomeData) :
    pyMaxByOdds x rest ∈ x :: rest := by
  induction rest generalizing x with
  | nil => simp [pyMaxByOdds]
  | cons r rs ih =>
    have hstep : pyMaxByOdds x (r :: rs) =
        pyMaxByOdds (if x.odds < r.odds then r else x) rs := rfl
    rw [hstep]
    rcases List.mem_cons.mp (ih (if x.odds < r.odds then r else x)) with h1 | h1
    · rw [h1]
      split
      · exact List.mem_cons_of_mem _ (List.mem_cons_self _ _)
      · exact List.mem_cons_self _ _
    · exact List.mem_cons_of_mem _ (List.mem_cons_of_mem _ h1)

/-- Selection-loop invariant: if every already-selected leg's bookmaker is in the
used set and the selected bookmakers are distinct, the final selection has
pairwise-distinct bookmakers. -/
theorem bestOddsLoop_nodup (filters : Option ArbitrageFilters)
    (gs : List (String × List OutcomeData)) (best : OutcomeDict)
    (used : List BookmakerName)
    (hsub : ∀ p ∈ best, p.2.bookmaker ∈ used)
    (hnd : (best.map (fun p => p.2.bookmaker)).Nodup) :
    ((bestOddsLoop filters gs best used).map (fun p => p.2.bookmaker)).Nodup := by
  induction gs generalizing best used with
  | nil => simpa [bestOddsLoop] using hnd
  | cons g gs ih =>
    rw [bestOddsLoop]
    split
    · exact ih best used hsub hnd
    · rename_i h
      set available :=
        (applyBookmakerFilter filters g.2).filter (fun o => !decide (o.bookmaker ∈ used)) with havail
      set chosen := pyMaxByOdds (available.head h) available.tail with hchosen
      have hmem : chosen ∈ available := by
        rw [hchosen]
        have := pyMaxByOdds_mem (available.head h) available.tail
        rwa [List.head_cons_tail] at this
      have hnotused : chosen.bookmaker ∉ used := by
        have := List.of_mem_filter hmem
        simpa using this
      apply ih (best ++ [(g.1, chosen)]) (chosen.bookmaker :: used)
      · intro p hp
        rcases List.mem_append.mp hp with h1 | h1
        · exact List.mem_cons_of_mem _ (hsub p h1)
        · have : p = (g.1, chosen) := by simpa using h1
          rw [this]
          exact List.mem_cons_self _ _
      · rw [List.map_append]
        simp only [List.map_cons, List.map_nil]
        rw [List.nodup_append]
        refine ⟨hnd, List.nodup_singleton _, ?_⟩
        intro b hb hb'
        have hb2 : b = chosen.bookmaker := by simpa using hb'
        obtain ⟨p, hp, hpb⟩ := List.mem_map.mp hb
        exact hnotused (hb2 ▸ hpb ▸ hsub p hp)

/-- The single-market best-odds selection never claims one bookmaker twice. -/
theorem getBestOddsPerOutcome_nodup (outcomes : OutcomeDict)
    (filters : Option ArbitrageFilters) :
    ((getBestOddsPerOutcome outcomes filters).map (fun p => p.2.bookmaker)).Nodup :=
  bestOddsLoop_nodup filters (groupByName outcomes) [] [] (by simp) (by simp)

/-- Python str.lower() (ASCII; the outcome names compared in the engine are
ASCII market labels). -/
def lowerString (s : String) : String := ⟨s.data.map Char.toLower⟩

/-- Substring test over character lists. -/
def listHasSub (needle : List Char) : List Char → Bool
  | [] => needle.isEmpty
  | c :: cs => needle.isPrefixOf (c :: cs) || listHasSub needle cs

/-- Python "needle in s" for strings. -/
def strContains (s needle : String) : Bool := listHasSub needle.data s.data

/-- ArbitrageEngine._get_fresh_outcomes (engine/arbitrage.py lines 147-158): keep
outcomes last seen at or after now − max_age, with distinct live/prematch ages. -/
def getFreshOutcomes (outcomes : OutcomeDict) (isLive : Bool) (now : ℤ) : OutcomeDict :=
  let maxAge := if isLive then settings.liveOddsMaxAge else settings.prematchOddsMaxAge
  outcomes.filter (fun kv => decide (now - maxAge ≤ kv.2.lastSeen))

/-- ArbitrageEngine._passes_arbitrage_filters (engine/arbitrage.py lines 219-236):
without filters, require arb% < 100 and profit% ≥ the configured minimum; with
filters, the minimum comes from the filter when it is not None (an "is not None"
test, so an explicit 0 threshold is honoured). -/
def passesArbitrageFilters (a p : ℚ) (filters : Option ArbitrageFilters) : Bool :=
  match filters with
  | none => decide (a < 100) && decide (settings.minArbPercentage ≤ p)
  | some f =>
    (match f.minArbPercentage with
     | some m => decide (m ≤ p)
     | none => decide (settings.minArbPercentage ≤ p)) && decide (a < 100)

/-- Bankroll choice (engine/arbitrage.py line 115): "filters.bankroll if filters
and filters.bankroll else self.default_bankroll" — a 0.0 bankroll is falsy. -/
def getBankroll (filters : Option ArbitrageFilters) : ℚ :=
  match filters with
  | none => settings.defaultBankroll
  | some f =>
    match f.bankroll with
    | some b => if b = 0 then settings.defaultBankroll else b
    | none => settings.defaultBankroll

/-- ArbitrageEngine._calculate_freshness_score (engine/arbitrage.py lines 270-291):
1 − (mean age)/300 clamped at 0, rounded to 3 decimals; 0 for no outcomes. -/
def calculateFreshnessScore (outcomes : List OutcomeData) (now : ℤ) : ℚ :=
  if outcomes = [] then 0
  else
    let avgAge : ℚ := ((outcomes.map (fun o => ((now - o.lastSeen : ℤ) : ℚ))).sum) /
      outcomes.length
    pyRound 3 (max 0 (1 - avgAge / 300))

/-- Result record (schema/models.py, class ArbitrageOpportunity). The pydantic
model also declares min_items=2 on outcomes and 0 ≤ freshness_score ≤ 1; the
detected_at wall-clock field is omitted. -/
structure ArbitrageOpportunity where
  eventName : String
  startTime : Option ℤ
  sport : Option String
  league : Option String
  marketType : String
  line : Option LineVal
  outcomes : List OutcomeData
  arbPercentage : ℚ
  profitPercentage : ℚ
  guaranteedProfit : ℚ
  bankroll : ℚ
  stakes : List StakeCalculation
  freshnessScore : ℚ

/-- Construction of an ArbitrageOpportunity with the pydantic validators applied
(schema/models.py lines 171-181): arb and profit percentages are rounded to 4
decimals, the guaranteed profit to 2. -/
def mkOpportunity (event : NormalizedEvent) (marketType : String) (line : Option LineVal)
    (outcomes : List OutcomeData) (a p : ℚ) (guaranteed : ℚ) (bankroll : ℚ)
    (stakes : List StakeCalculation) (fresh : ℚ) : ArbitrageOpportunity :=
  { eventName := event.canonicalName, startTime := event.startTime,
    sport := event.sport, league := event.league, marketType := marketType,
    line := line, outcomes := outcomes, arbPercentage := pyRound 4 a,
    profitPercentage := pyRound 4 p, guaranteedProfit := pyRound 2 guaranteed,
    bankroll := bankroll, stakes := stakes, freshnessScore := fresh }

/-- Market-type filter guard of _detect_market_arbitrages (lines 88-89):
"if filters and filters.market_type and market.market_type != filters.market_type";
every MarketType value is a nonempty string, so its truthiness test is isSome. -/
def marketTypeRejected (market : NormalizedMarket) (filters : Option ArbitrageFilters) : Bool :=
  match filters with
  | none => false
  | some f =>
    match f.marketType with
    | none => false
    | some mt => decide (market.marketType ≠ mt)

/-- Minimum-absolute-profit guard (lines 120-121): "if filters and
filters.min_profit and guaranteed_profit < filters.min_profit" — a 0.0
min_profit is falsy and disables the check. -/
def minProfitRejected (guaranteed : ℚ) (filters : Option ArbitrageFilters) : Bool :=
  match filters with
  | none => false
  | some f =>
    match f.minProfit with
    | none => false
    | some m => if m = 0 then false else decide (guaranteed < m)

/-- Body of ArbitrageEngine._detect_market_arbitrages (engine/arbitrage.py lines
81-145) for one market.  The Python body runs under a try/except that returns the
empty list on an exception; in this embedding the body is total, so the except
branch is unreachable (the loop-level failure semantics are modelled separately
by marketLoop and eventLoop below). -/
def detectMarketArbitrages (event : MatchedEvent) (market : NormalizedMarket)
    (filters : Option ArbitrageFilters) (now : ℤ) : List ArbitrageOpportunity :=
  if marketTypeRejected market filters then []
  else
    let fresh := getFreshOutcomes market.outcomes event.event.isLive now
    if fresh.length < 2 then []
    else
      let best := getBestOddsPerOutcome fresh filters
      if best.length < 2 then []
      else
        match calculateArbitrage best with
        | none => []
        | some (a, p) =>
          if !passesArbitrageFilters a p filters then []
          else
            let bankroll := getBankroll filters
            let guaranteed := bankroll * (p / 100)
            if minProfitRejected guaranteed filters then []
            else
              [mkOpportunity event.event market.marketType market.line
                (best.map (fun kv => kv.2)) a p guaranteed bankroll
                (calculateStakes best bankroll)
                (calculateFreshnessScore (best.map (fun kv => kv.2)) now)]

/-- Python dict assignment d[k] = v on an association list: overwrite in place if
the key exists, else append. -/
def insertKV (d : OutcomeDict) (k : String) (v : OutcomeData) : OutcomeDict :=
  if d.any (fun kv => kv.1 = k) then
    d.map (fun kv => if kv.1 = k then (k, v) else kv)
  else d ++ [(k, v)]

/-- ArbitrageEngine._calculate_middle_opportunity (engine/arbitrage.py lines
378-444): pick the first outcome whose name contains "over" from the
lower-line market and the first containing "under" from the higher-line market,
key them "Over {lower}"/"Under {higher}", and run the ordinary arbitrage math,
filters, stakes and opportunity construction on that synthetic two-leg dict.
Python str(float) formatting of the line inside the keys is modelled by toString
of the rational; only the distinctness of the two keys matters downstream. -/
def middleOuts (market1 market2 : NormalizedMarket) (line1 line2 : ℚ) : OutcomeDict :=
  let lowerLine := min line1 line2
  let higherLine := max line1 line2
  let lowerMarket := if line1 = lowerLine then market1 else market2
  let higherMarket := if line2 = higherLine then market2 else market1
  let overLeg := lowerMarket.outcomes.find? (fun kv => strContains (lowerString kv.1) "over")
  let underLeg := higherMarket.outcomes.find? (fun kv => strContains (lowerString kv.1) "under")
  let outs₁ : OutcomeDict :=
    match overLeg with
    | some kv => insertKV [] ("Over " ++ toString lowerLine) kv.2
    | none => []
  match underLeg with
  | some kv => insertKV outs₁ ("Under " ++ toString higherLine) kv.2
  | none => outs₁

/-- Continuation of _calculate_middle_opportunity (engine/arbitrage.py lines
408-440) after the synthetic two-leg dict has been assembled. -/
def calculateMiddleOpportunity (market1 market2 : NormalizedMarket) (line1 line2 : ℚ)
    (event : NormalizedEvent) (filters : Option ArbitrageFilters) (now : ℤ) :
    Option ArbitrageOpportunity :=
  let lowerLine := min line1 line2
  let higherLine := max line1 line2
  let outs := middleOuts market1 market2 line1 line2
  if outs.length < 2 then none
  else
    match calculateArbitrage outs with
    | none => none
    | some (a, p) =>
      if !passesArbitrageFilters a p filters then none
      else
        let bankroll := getBankroll filters
        some (mkOpportunity event
          ("Middle " ++ toString lowerLine ++ "-" ++ toString higherLine)
          (some (.str (toString lowerLine ++ "/" ++ toString higherLine)))
          (outs.map (fun kv => kv.2)) a p (bankroll * (p / 100)) bankroll
          (calculateStakes outs bankroll)
          (calculateFreshnessScore (outs.map (fun kv => kv.2)) now))

/-- The synthetic middle dict never has more than two legs (one Over, one Under). -/
theorem middleOuts_length_le (m1 m2 : NormalizedMarket) (l1 l2 : ℚ) :
    (middleOuts m1 m2 l1 l2).length ≤ 2 := by
  simp only [middleOuts]
  split
  · split
    · simp only [insertKV]
      split
      · simp
      · simp only [List.any_eq_true] at *
        split
        · simp
        · simp
    · simp [insertKV]
  · split
    · simp [insertKV]
    · simp

/-- C2 (amended): every opportunity emitted by single-market detection has at
least 2 legs and pairwise-distinct bookmakers; a middle opportunity always has
exactly 2 legs (one Over, one Under), with no bookmaker-distinctness guarantee. -/
theorem c2_legs_and_bookmakers (event : MatchedEvent) (market : NormalizedMarket)
    (filters : Option ArbitrageFilters) (now : ℤ) :
    (∀ opp ∈ detectMarketArbitrages event market filters now,
        2 ≤ opp.outcomes.length ∧ (opp.outcomes.map (fun o => o.bookmaker)).Nodup) ∧
    (∀ m1 m2 : NormalizedMarket, ∀ l1 l2 : ℚ, ∀ ev : NormalizedEvent,
      ∀ fs : Option ArbitrageFilters, ∀ t : ℤ, ∀ opp : ArbitrageOpportunity,
      calculateMiddleOpportunity m1 m2 l1 l2 ev fs t = some opp →
        opp.outcomes.length = 2) := by
  constructor
  · intro opp hopp
    simp only [detectMarketArbitrages] at hopp
    split at hopp
    · simp at hopp
    · split at hopp
      · simp at hopp
      · split at hopp
        · simp at hopp
        · split at hopp
          · simp at hopp
          · rename_i a p harb
            split at hopp
            · simp at hopp
            · split at hopp
              · simp at hopp
              · rename_i hmt hfresh hbest hpass hprofit
                have hopp' : opp = mkOpportunity event.event market.marketType market.line
                    ((getBestOddsPerOutcome
                        (getFreshOutcomes market.outcomes event.event.isLive now) filters).map
                      (fun kv => kv.2)) a p
                    (getBankroll filters * (p / 100)) (getBankroll filters)
                    (calculateStakes
                      (getBestOddsPerOutcome
                        (getFreshOutcomes market.outcomes event.event.isLive now) filters)
                      (getBankroll filters))
                    (calculateFreshnessScore
                      ((getBestOddsPerOutcome
                          (getFreshOutcomes market.outcomes event.event.isLive now) filters).map
                        (fun kv => kv.2)) now) := by
                  simpa using hopp
                rw [hopp']
                constructor
                · simp only [mkOpportunity, List.length_map]
                  omega
                · simp only [mkOpportunity, List.map_map]
                  exact getBestOddsPerOutcome_nodup _ _
  · intro m1 m2 l1 l2 ev fs t opp h
    simp only [calculateMiddleOpportunity] at h
    split at h
    · simp at h
    · split at h
      · simp at h
      · rename_i hlen harb
        split at h
        · simp at h
        · have hle := middleOuts_length_le m1 m2 l1 l2
          have hopp' : opp.outcomes = (middleOuts m1 m2 l1 l2).map (fun kv => kv.2) := by
            have := Option.some.injEq _ _ ▸ h
            rw [← this]
            rfl
          rw [hopp', List.length_map]
          omega

/-- Lower-line market leg for the middle counterexample: Over 2 at odds 2.5,
bookmaker stake. -/
def c2over : OutcomeData := ⟨"Over 2", 5 / 2, .stake, "u1", 0⟩

/-- Higher-line market leg for the middle counterexample: Under 3 at odds 2.5,
also bookmaker stake. -/
def c2under : OutcomeData := ⟨"Under 3", 5 / 2, .stake, "u2", 0⟩

def c2m1 : NormalizedMarket := ⟨"totals", some (.num 2), [("Over 2", c2over)]⟩

def c2m2 : NormalizedMarket := ⟨"totals", some (.num 3), [("Under 3", c2under)]⟩

def c2mev : NormalizedEvent := { canonicalName := "E" }

theorem c2_strContains_over : strContains (lowerString "Over 2") "over" = true := by decide

theorem c2_strContains_under : strContains (lowerString "Under 3") "under" = true := by decide

/-- The middle opportunity the engine produces from c2m1/c2m2: both legs from
bookmaker stake. -/
def c2middleOpp : ArbitrageOpportunity :=
  mkOpportunity c2mev ("Middle " ++ toString (2 : ℚ) ++ "-" ++ toString (3 : ℚ))
    (some (.str (toString (2 : ℚ) ++ "/" ++ toString (3 : ℚ))))
    [c2over, c2under] 80 25 (1000 * (25 / 100)) 1000
    (calculateStakes [("Over 2", c2over), ("Under 3", c2under)] 1000)
    (calculateFreshnessScore [c2over, c2under] 0)

theorem c2_middleOuts_eval :
    middleOuts c2m1 c2m2 2 3 = [("Over 2", c2over), ("Under 3", c2under)] := by
  simp only [middleOuts, c2m1, c2m2]
  have hk1 : ("Over " ++ toString (2 : ℚ)) = "Over 2" := by decide
  have hk2 : ("Under " ++ toString (3 : ℚ)) = "Under 3" := by decide
  norm_num [List.find?, c2_strContains_over, c2_strContains_under, insertKV, hk1, hk2]
  decide

theorem c2_middle_eval :
    calculateMiddleOpportunity c2m1 c2m2 2 3 c2mev none 0 = some c2middleOpp := by
  have harb : calculateArbitrage [("Over 2", c2over), ("Under 3", c2under)] =
      some (80, 25) := by
    norm_num [calculateArbitrage, impliedTotal, c2over, c2under, pyRound, round_eq]
  simp only [calculateMiddleOpportunity, c2_middleOuts_eval, harb]
  norm_num [passesArbitrageFilters, settings, getBankroll, c2middleOpp, mkOpportunity,
    c2over, c2under]

/-- C2 counterexample: the cross-market (middle) path imposes no bookmaker
exclusivity — from two one-bookmaker totals markets at lines 2 and 3, both priced
by bookmaker stake at odds 2.5, the engine reports a 2-leg middle opportunity
whose two legs come from the same bookmaker, refuting the claim that every leg
of every produced opportunity comes from a distinct bookmaker. -/
theorem c2_counterexample :
    calculateMiddleOpportunity c2m1 c2m2 2 3 c2mev none 0 = some c2middleOpp ∧
    c2middleOpp.outcomes.map (fun o => o.bookmaker) =
      [BookmakerName.stake, BookmakerName.stake] ∧
    ¬ (c2middleOpp.outcomes.map (fun o => o.bookmaker)).Nodup :=
  ⟨c2_middle_eval, rfl, by decide⟩

def c2evEx : MatchedEvent := { event := { canonicalName := "Ev" } }

def c2mktEx : NormalizedMarket := { marketType := "moneyline", outcomes := c1ex }

/-- The single-market opportunity the engine produces from c2mktEx. -/
def c2oppEx : ArbitrageOpportunity :=
  mkOpportunity c2evEx.event "moneyline" none (c1ex.map (fun kv => kv.2)) 75
    (333333 / 10000) (1000 * (333333 / 10000 / 100)) 1000 (calculateStakes c1ex 1000)
    (calculateFreshnessScore (c1ex.map (fun kv => kv.2)) 0)

theorem c2_detect_eval : detectMarketArbitrages c2evEx c2mktEx none 0 = [c2oppEx] := by
  have hfresh : getFreshOutcomes c1ex false 0 = c1ex := by
    norm_num [getFreshOutcomes, settings, c1ex, List.filter]
  have hbest : getBestOddsPerOutcome c1ex none = c1ex := by
    norm_num [getBestOddsPerOutcome, groupByName, bestOddsLoop, applyBookmakerFilter,
      pyMaxByOdds, c1ex, List.foldl]
    decide
  have harb : calculateArbitrage c1ex = some (75, 333333 / 10000) := by
    norm_num [calculateArbitrage, impliedTotal, c1ex, pyRound, round_eq]
  simp only [detectMarketArbitrages, marketTypeRejected, c2mktEx, c2evEx]
  rw [hfresh, hbest, harb]
  norm_num [c1ex, passesArbitrageFilters, settings, getBankroll, minProfitRejected,
    c2oppEx, c2evEx, mkOpportunity]

/-- Witness for the amended C2 at concrete inputs: the single-market opportunity
c2oppEx has 2 distinct-bookmaker legs, and the middle opportunity c2middleOpp
has exactly 2 legs. -/
theorem c2_legs_and_bookmakers_witness :
    (2 ≤ c2oppEx.outcomes.length ∧
      (c2oppEx.outcomes.map (fun o => o.bookmaker)).Nodup) ∧
    c2middleOpp.outcomes.length = 2 :=
  ⟨(c2_legs_and_bookmakers c2evEx c2mktEx none 0).1 c2oppEx
      (by rw [c2_detect_eval]; exact List.mem_singleton_self _),
   (c2_legs_and_bookmakers c2evEx c2mktEx none 0).2 c2m1 c2m2 2 3 c2mev none 0
      c2middleOpp c2_middle_eval⟩

/-- Witness for C3 at the two-leg market c1ex with bankroll 1000. -/
theorem c3_stake_sizing_witness :
    ((calculateStakes c1ex 1000).map (fun s => s.stakeAmount) =
       c1ex.map (fun p => pyRound 2 (1000 * ((1 / p.2.odds) / impliedTotal c1ex)))) ∧
    |((calculateStakes c1ex 1000).map (fun s => s.stakeAmount)).sum - 1000| ≤
       c1ex.length / 200 ∧
    (∀ s ∈ calculateStakes c1ex 1000,
       s.potentialProfit = pyRound 2 (1000 * (1 / impliedTotal c1ex - 1)) ∧
       |s.potentialProfit - 1000 * pyRound 4 ((1 / impliedTotal c1ex - 1) * 100) / 100| ≤
         1 / 200 + 1000 / 2000000) :=
  c3_stake_sizing c1ex 1000
    (by
      intro p hp
      simp only [c1ex, List.mem_cons, List.not_mem_nil, or_false] at hp
      rcases hp with rfl | rfl <;> norm_num)
    (by simp [c1ex])
    (by norm_num)

/-- Empty market used to evaluate NormalizedMarket.add_outcome. -/
def c4market : NormalizedMarket := { marketType := "moneyline", outcomes := [] }

/-- Observation of outcome "Home" by mostbet at odds 2.0, seen at t=1. -/
def c4obsX : OutcomeData := ⟨"Home", 2, .mostbet, "x", 1⟩

/-- Later observation of the same outcome name "Home" by a different bookmaker
(stake, odds 2.1), seen at t=2. -/
def c4obsY : OutcomeData := ⟨"Home", 21 / 10, .stake, "y", 2⟩

/-- C4 (code evaluated at the failing input): after two observations of the same
outcome name from two different bookmakers, the outcome store holds a single
entry — the newer observation has overwritten the other bookmaker's value, so
best-odds selection can never compare the two bookmakers for that name. -/
theorem c4_store_collapses_per_name :
    (addOutcome (addOutcome c4market c4obsX) c4obsY).outcomes = [("Home", c4obsY)] ∧
    (addOutcome (addOutcome c4market c4obsX) c4obsY).outcomes.length = 1 :=
  ⟨rfl, rfl⟩

/-- Distinct bookmakers contributing to an event, across all markets and
outcomes (the set built by Matcher._filter_by_bookmaker_coverage; list dedup
models the Python set's cardinality). -/
def eventBookmakers (e : MatchedEvent) : List BookmakerName :=
  ((e.markets.map (fun km => km.2.outcomes.map (fun kv => kv.2.bookmaker))).flatten).dedup

/-- EventMatcher._filter_by_bookmaker_coverage (match/matcher.py lines 417-435):
keep exactly the events referencing at least 2 distinct bookmakers. -/
def filterByBookmakerCoverage (events : List MatchedEvent) : List MatchedEvent :=
  events.filter (fun e => decide (2 ≤ (eventBookmakers e).length))

/-- C5: every event surviving the coverage filter (the matcher's final stage)
references at least 2 distinct bookmakers; an input event with at least 2
distinct bookmakers is kept; an input event with fewer is dropped. -/
theorem c5_coverage_filter (events : List MatchedEvent) :
    (∀ e ∈ filterByBookmakerCoverage events, 2 ≤ (eventBookmakers e).length) ∧
    (∀ e ∈ events, 2 ≤ (eventBookmakers e).length →
        e ∈ filterByBookmakerCoverage events) ∧
    (∀ e ∈ events, (eventBookmakers e).length < 2 →
        e ∉ filterByBookmakerCoverage events) := by
  refine ⟨?_, ?_, ?_⟩
  · intro e he
    have := List.of_mem_filter he
    simpa using this
  · intro e he h2
    exact List.mem_filter.mpr ⟨he, by simpa using h2⟩
  · intro e _ hlt hmem
    have hkeep := List.of_mem_filter hmem
    have h2 : 2 ≤ (eventBookmakers e).length := by simpa using hkeep
    omega

/-- Event covered by two distinct bookmakers (mostbet and stake, via c1ex). -/
def c5ev2 : MatchedEvent :=
  { event := { canonicalName := "A" },
    markets := [("moneyline", { marketType := "moneyline", outcomes := c1ex })] }

/-- Event covered by a single bookmaker (leon only). -/
def c5ev1 : MatchedEvent :=
  { event := { canonicalName := "B" },
    markets := [("moneyline",
      { marketType := "moneyline", outcomes := [("Home", ⟨"Home", 2, .leon, "u", 0⟩)] })] }

/-- Witness for C5: the two-bookmaker event survives the coverage filter, the
one-bookmaker event is dropped. -/
theorem c5_coverage_filter_witness :
    c5ev2 ∈ filterByBookmakerCoverage [c5ev2, c5ev1] ∧
    c5ev1 ∉ filterByBookmakerCoverage [c5ev2, c5ev1] :=
  ⟨(c5_coverage_filter [c5ev2, c5ev1]).2.1 c5ev2 (by simp)
      (by simp [eventBookmakers, c5ev2, c1ex, List.dedup]),
   (c5_coverage_filter [c5ev2, c5ev1]).2.2 c5ev1 (by simp)
      (by simp [eventBookmakers, c5ev1, List.dedup])⟩

/-- Raw per-bookmaker quote (schema/models.py, class RawOddsData). -/
structure RawOddsData where
  eventName : String
  startTime : Option ℤ := none
  sport : Option String := none
  league : Option String := none
  marketName : String
  line : Option LineVal := none
  outcomeName : String
  odds : ℚ
  bookmaker : BookmakerName
  url : String
  scrapedAt : ℤ := 0
  isLive : Bool := false

/-- Known start times of a quote group (matcher.py lines 251-252). -/
def knownTimes (g : List RawOddsData) : List ℤ := g.filterMap (fun o => o.startTime)

/-- EventMatcher._validate_time_compatibility (match/matcher.py lines 247-264),
parametrised by the configured tolerance in seconds (self.time_tolerance, default
15 minutes = 60 · settings.timeToleranceMinutes): compatible when either side has
no known start time, or some cross pair of start times is within the tolerance. -/
def validateTimeCompatibility (tol : ℤ) (g1 g2 : List RawOddsData) : Bool :=
  if knownTimes g1 = [] ∨ knownTimes g2 = [] then true
  else (knownTimes g1).any (fun t1 =>
    (knownTimes g2).any (fun t2 => decide (|t1 - t2| ≤ tol)))

/-- C6: when both groups have at least one known start time, the temporal guard
accepts exactly when some pair of start times across the two groups differs by
at most the tolerance; when neither group has a known start time the guard
accepts unconditionally. -/
theorem c6_temporal_guard (tol : ℤ) (g1 g2 : List RawOddsData) :
    (knownTimes g1 ≠ [] → knownTimes g2 ≠ [] →
      (validateTimeCompatibility tol g1 g2 = true ↔
        ∃ t1 ∈ knownTimes g1, ∃ t2 ∈ knownTimes g2, |t1 - t2| ≤ tol)) ∧
    (knownTimes g1 = [] → knownTimes g2 = [] →
      validateTimeCompatibility tol g1 g2 = true) := by
  constructor
  · intro h1 h2
    unfold validateTimeCompatibility
    rw [if_neg (by tauto)]
    simp [List.any_eq_true]
  · intro h1 _
    unfold validateTimeCompatibility
    rw [if_pos (Or.inl h1)]

/-- Quote group whose only known start time is t=0. -/
def c6g1 : List RawOddsData :=
  [{ eventName := "A vs B", startTime := some 0, marketName := "1x2",
     outcomeName := "1", odds := 2, bookmaker := .mostbet, url := "u" }]

/-- Quote group whose only known start time is 3 hours later (t=10800). -/
def c6g2 : List RawOddsData :=
  [{ eventName := "A vs B", startTime := some 10800, marketName := "1x2",
     outcomeName := "1", odds := 2, bookmaker := .stake, url := "v" }]

/-- Witness for C6 at the default 15-minute tolerance: with the two groups' only
start times 3 hours apart, the guard's acceptance is equivalent to a cross pair
within 900 seconds — and indeed the guard rejects this pair. -/
theorem c6_temporal_guard_witness :
    (validateTimeCompatibility (60 * settings.timeToleranceMinutes) c6g1 c6g2 = true ↔
      ∃ t1 ∈ knownTimes c6g1, ∃ t2 ∈ knownTimes c6g2, |t1 - t2| ≤
        60 * settings.timeToleranceMinutes) ∧
    validateTimeCompatibility (60 * settings.timeToleranceMinutes) c6g1 c6g2 = false :=
  ⟨(c6_temporal_guard (60 * settings.timeToleranceMinutes) c6g1 c6g2).1
      (by simp [knownTimes, c6g1]) (by simp [knownTimes, c6g2]),
   by decide⟩

/-- Loop skeleton of detect_arbitrages (engine/arbitrage.py lines 34-51): each
event's body runs under try/except Exception; a raised exception is caught,
logged, and only that event is skipped (continue). -/
def eventLoop {E : Type} (body : MatchedEvent → Except E (List ArbitrageOpportunity)) :
    List MatchedEvent → List ArbitrageOpportunity
  | [] => []
  | e :: es =>
    (match body e with
     | .ok arbs => arbs
     | .error _ => []) ++ eventLoop body es

/-- Loop skeleton of the per-market loop (engine/arbitrage.py lines 41-43
together with the try/except inside _detect_market_arbitrages, lines 86-144): a
market whose calculation raises contributes nothing; the loop continues. -/
def marketLoop {E : Type}
    (body : String × NormalizedMarket → Except E (List ArbitrageOpportunity)) :
    List (String × NormalizedMarket) → List ArbitrageOpportunity
  | [] => []
  | m :: ms =>
    (match body m with
     | .ok arbs => arbs
     | .error _ => []) ++ marketLoop body ms

/-- Final sort of detect_arbitrages (line 54): stable sort by profit percentage
descending. -/
def sortByProfitDesc (arbs : List ArbitrageOpportunity) : List ArbitrageOpportunity :=
  arbs.mergeSort (fun x y => decide (y.profitPercentage ≤ x.profitPercentage))

/-- Ordered pairs (i, j) with i < j of the pair loop in
_detect_totals_line_arbitrages (engine/arbitrage.py lines 355-356). -/
def totalsPairs {a : Type} : List a → List (a × a)
  | [] => []
  | x :: xs => xs.map (fun y => (x, y)) ++ totalsPairs xs

/-- ArbitrageEngine._detect_totals_line_arbitrages (engine/arbitrage.py lines
341-376): for every pair of totals markets with numeric lines differing by
exactly 1.0, attempt a middle opportunity. -/
def detectTotalsLineArbitrages (ms : List (String × NormalizedMarket))
    (event : NormalizedEvent) (filters : Option ArbitrageFilters) (now : ℤ) :
    List ArbitrageOpportunity :=
  if ms.length < 2 then []
  else
    (totalsPairs ms).filterMap (fun pr =>
      match pr.1.2.line, pr.2.2.line with
      | some (.num l1), some (.num l2) =>
          if |l1 - l2| = 1 then
            calculateMiddleOpportunity pr.1.2 pr.2.2 l1 l2 event filters now
          else none
      | _, _ => none)

/-- ArbitrageEngine._detect_cross_market_arbitrages (engine/arbitrage.py lines
293-327): markets grouped by type; the handicap branch is an unimplemented stub
returning nothing, the totals branch searches middles. -/
def detectCrossMarketArbitrages (event : MatchedEvent)
    (filters : Option ArbitrageFilters) (now : ℤ) : List ArbitrageOpportunity :=
  detectTotalsLineArbitrages (event.markets.filter (fun km => km.2.marketType = "totals"))
    event.event filters now

/-- Per-event body of detect_arbitrages (engine/arbitrage.py lines 36-47): event
filter, then the per-market loop, then cross-market detection. -/
def detectEventBody (filters : Option ArbitrageFilters) (now : ℤ)
    (event : MatchedEvent) : List ArbitrageOpportunity :=
  if passesEventFilters event filters now then
    marketLoop (E := String)
      (fun km => .ok (detectMarketArbitrages event km.2 filters now)) event.markets ++
      detectCrossMarketArbitrages event filters now
  else []

/-- ArbitrageEngine.detect_arbitrages (engine/arbitrage.py lines 27-57): loop
over events with per-event exception isolation, then sort by profit percentage
descending.  The assembled body in this embedding is total, so it is wrapped in
Except.ok; the isolation semantics are stated over arbitrary fallible bodies. -/
def detectArbitrages (events : List MatchedEvent) (filters : Option ArbitrageFilters)
    (now : ℤ) : List ArbitrageOpportunity :=
  sortByProfitDesc
    (eventLoop (E := String) (fun e => .ok (detectEventBody filters now e)) events)

theorem eventLoop_append {E : Type}
    (body : MatchedEvent → Except E (List ArbitrageOpportunity))
    (l1 l2 : List MatchedEvent) :
    eventLoop body (l1 ++ l2) = eventLoop body l1 ++ eventLoop body l2 := by
  induction l1 with
  | nil => simp [eventLoop]
  | cons e es ih => simp [eventLoop, ih]

theorem marketLoop_append {E : Type}
    (body : String × NormalizedMarket → Except E (List ArbitrageOpportunity))
    (l1 l2 : List (String × NormalizedMarket)) :
    marketLoop body (l1 ++ l2) = marketLoop body l1 ++ marketLoop body l2 := by
  induction l1 with
  | nil => simp [marketLoop]
  | cons m ms ih => simp [marketLoop, ih]

/-- C8: a raising unit is absorbed at its own boundary — an event whose body
raises contributes nothing while all other events are still processed, a market
whose body raises contributes nothing while all other markets are still
processed, and the final sorted output of detect_arbitrages contains exactly the
per-event loop's results. -/
theorem c8_failure_isolation {E : Type}
    (ebody : MatchedEvent → Except E (List ArbitrageOpportunity))
    (mbody : String × NormalizedMarket → Except E (List ArbitrageOpportunity))
    (es1 es2 : List MatchedEvent) (bad : MatchedEvent) (err : E)
    (ms1 ms2 : List (String × NormalizedMarket)) (badm : String × NormalizedMarket)
    (errm : E) (events : List MatchedEvent) (filters : Option ArbitrageFilters)
    (now : ℤ) (hbad : ebody bad = .error err) (hbadm : mbody badm = .error errm) :
    eventLoop ebody (es1 ++ bad :: es2) = eventLoop ebody es1 ++ eventLoop ebody es2 ∧
    marketLoop mbody (ms1 ++ badm :: ms2) =
      marketLoop mbody ms1 ++ marketLoop mbody ms2 ∧
    (∀ a, a ∈ detectArbitrages events filters now ↔
      a ∈ eventLoop (E := String)
        (fun e => .ok (detectEventBody filters now e)) events) := by
  refine ⟨?_, ?_, ?_⟩
  · rw [eventLoop_append]
    congr 1
    simp [eventLoop, hbad]
  · rw [marketLoop_append]
    congr 1
    simp [marketLoop, hbadm]
  · intro a
    exact (List.mergeSort_perm _ _).mem_iff

/-- Witness for C8: with a body that raises on every unit, singleton batches
produce empty output on both loops, and sorting preserves membership on the
empty batch. -/
theorem c8_failure_isolation_witness :
    eventLoop (E := String) (fun _ => .error "boom") ([] ++ c2evEx :: []) =
      eventLoop (E := String) (fun _ => .error "boom") [] ++
        eventLoop (E := String) (fun _ => .error "boom") [] ∧
    marketLoop (E := String) (fun _ => .error "boom")
        ([] ++ ("moneyline", c2mktEx) :: []) =
      marketLoop (E := String) (fun _ => .error "boom") [] ++
        marketLoop (E := String) (fun _ => .error "boom") [] ∧
    (∀ a, a ∈ detectArbitrages [] none 0 ↔
      a ∈ eventLoop (E := String) (fun e => .ok (detectEventBody none 0 e)) []) :=
  c8_failure_isolation (fun _ => .error "boom") (fun _ => .error "boom")
    [] [] c2evEx "boom" [] [] ("moneyline", c2mktEx) "boom" [] none 0 rfl rfl

/-- EventMatcher._find_similar_names (match/matcher.py lines 231-245): the target
itself plus every other name whose similarity to the target passes the
threshold; the similarity test (rapidfuzz ratio ≥ fuzzy_threshold) is the
abstract parameter sim. -/
def findSimilarNames (sim : String → String → Bool) (target : String)
    (allNames : List String) : List String :=
  target :: allNames.filter (fun n => decide (n ≠ target) && sim target n)

/-- Inner loop of EventMatcher._find_similar_event_groups (match/matcher.py lines
219-224): claim each not-yet-processed similar name that passes the temporal
guard (abstract parameter compat), adding it to the processed set immediately;
returns (claimed names, new processed set). -/
def claimSimilar (compat : String → String → Bool) (target : String) :
    List String → List String → List String × List String
  | [], processed => ([], processed)
  | s :: ss, processed =>
    if s ∈ processed then claimSimilar compat target ss processed
    else if compat target s then
      (s :: (claimSimilar compat target ss (s :: processed)).1,
        (claimSimilar compat target ss (s :: processed)).2)
    else claimSimilar compat target ss processed

/-- Outer loop of _find_similar_event_groups (match/matcher.py lines 210-228):
skip processed names; otherwise claim the unprocessed compatible similar names
as one group (appended only when nonempty). -/
def clusterNames (sim compat : String → String → Bool) (allNames : List String) :
    List String → List String → List (List String)
  | [], _ => []
  | n :: ns, processed =>
    if n ∈ processed then clusterNames sim compat allNames ns processed
    else
      if (claimSimilar compat n (findSimilarNames sim n allNames) processed).1 = [] then
        clusterNames sim compat allNames ns
          (claimSimilar compat n (findSimilarNames sim n allNames) processed).2
      else
        (claimSimilar compat n (findSimilarNames sim n allNames) processed).1 ::
          clusterNames sim compat allNames ns
            (claimSimilar compat n (findSimilarNames sim n allNames) processed).2

/-- EventMatcher._find_similar_event_groups (match/matcher.py lines 204-229) at
the level of event names: each group lists the event names whose odds are merged
into one MatchedEvent. -/
def findSimilarEventGroups (sim compat : String → String → Bool)
    (names : List String) : List (List String) :=
  clusterNames sim compat names names []

theorem claimSimilar_mono (compat : String → String → Bool) (target x : String) :
    ∀ (ss processed : List String), x ∈ processed →
      x ∈ (claimSimilar compat target ss processed).2 := by
  intro ss
  induction ss with
  | nil => intro processed h; simpa [claimSimilar] using h
  | cons s ss ih =>
    intro processed h
    rw [claimSimilar]
    split
    · exact ih processed h
    · split
      · exact ih (s :: processed) (List.mem_cons_of_mem _ h)
      · exact ih processed h

theorem claimSimilar_claimed_mem (compat : String → String → Bool) (target x : String) :
    ∀ (ss processed : List String), x ∈ (claimSimilar compat target ss processed).1 →
      x ∈ (claimSimilar compat target ss processed).2 := by
  intro ss
  induction ss with
  | nil => intro processed h; simp [claimSimilar] at h
  | cons s ss ih =>
    intro processed h
    rw [claimSimilar] at h ⊢
    split at h <;> rename_i hc1
    · rw [if_pos hc1]
      exact ih processed h
    · rw [if_neg hc1]
      split at h <;> rename_i hc2
      · rw [if_pos hc2]
        rcases List.mem_cons.mp h with rfl | h1
        · exact claimSimilar_mono compat target x ss (x :: processed)
            (List.mem_cons_self _ _)
        · exact ih (s :: processed) h1
      · rw [if_neg hc2]
        exact ih processed h

theorem claimSimilar_claimed_new (compat : String → String → Bool) (target x : String) :
    ∀ (ss processed : List String), x ∈ (claimSimilar compat target ss processed).1 →
      x ∉ processed := by
  intro ss
  induction ss with
  | nil => intro processed h; simp [claimSimilar] at h
  | cons s ss ih =>
    intro processed h
    rw [claimSimilar] at h
    split at h
    · exact ih processed h
    · split at h
      · rcases List.mem_cons.mp h with rfl | h1
        · assumption
        · intro hx
          exact ih (s :: processed) h1 (List.mem_cons_of_mem _ hx)
      · exact ih processed h

theorem clusterNames_avoid (sim compat : String → String → Bool)
    (allNames : List String) (x : String) :
    ∀ (rem processed : List String) (g : List String),
      g ∈ clusterNames sim compat allNames rem processed → x ∈ g → x ∉ processed := by
  intro rem
  induction rem with
  | nil => intro processed g hg; simp [clusterNames] at hg
  | cons n ns ih =>
    intro processed g hg hx
    rw [clusterNames] at hg
    split at hg
    · exact ih processed g hg hx
    · split at hg
      · intro hproc
        exact ih _ g hg hx (claimSimilar_mono compat n x _ processed hproc)
      · rcases List.mem_cons.mp hg with rfl | h1
        · exact claimSimilar_claimed_new compat n x _ processed hx
        · intro hproc
          exact ih _ g h1 hx (claimSimilar_mono compat n x _ processed hproc)

/-- C9: the greedy clustering never assigns one event name to two groups — the
output groups are pairwise disjoint, so all quotes filed under one normalized
event name end up in at most one MatchedEvent. -/
theorem c9_clusters_disjoint (sim compat : String → String → Bool)
    (names : List String) :
    List.Pairwise (fun g1 g2 => ∀ x ∈ g1, x ∉ g2)
      (findSimilarEventGroups sim compat names) := by
  unfold findSimilarEventGroups
  suffices h : ∀ (rem processed : List String),
      List.Pairwise (fun g1 g2 => ∀ x ∈ g1, x ∉ g2)
        (clusterNames sim compat names rem processed) from h names []
  intro rem
  induction rem with
  | nil => intro processed; simp [clusterNames]
  | cons n ns ih =>
    intro processed
    rw [clusterNames]
    split
    · exact ih processed
    · split
      · exact ih _
      · refine List.pairwise_cons.mpr ⟨?_, ih _⟩
        intro g hg x hx hxg
        exact clusterNames_avoid sim compat names x ns _ g hg hxg
          (claimSimilar_claimed_mem compat n x _ processed hx)

/-- Witness for C9 on a concrete batch: two names that merge plus one that does
not, with everything-similar matching and an always-true temporal guard. -/
theorem c9_clusters_disjoint_witness :
    List.Pairwise (fun g1 g2 => ∀ x ∈ g1, x ∉ g2)
      (findSimilarEventGroups (fun _ _ => true) (fun _ _ => true)
        ["A vs B", "A vs C", "D vs E"]) :=
  c9_clusters_disjoint (fun _ _ => true) (fun _ _ => true) ["A vs B", "A vs C", "D vs E"]

/-- ASCII whitespace — the fragment of Python \s exercised by the normalizer's
inputs handled in this embedding. -/
def pyIsSpace (c : Char) : Bool :=
  c = ' ' || c = '\t' || c = '\n' || c = '\r' || c = '\x0b' || c = '\x0c'

/-- ASCII word character — the fragment of Python \w handled here. -/
def pyIsWord (c : Char) : Bool := c.isAlphanum || c = '_'

/-- Removal of trailing whitespace. -/
def dropTrailingSpaces : List Char → List Char
  | [] => []
  | c :: cs =>
    match dropTrailingSpaces cs with
    | [] => if pyIsSpace c then [] else [c]
    | r :: rs => c :: r :: rs

/-- Python str.strip(). -/
def stripChars (l : List Char) : List Char := dropTrailingSpaces (l.dropWhile pyIsSpace)

/-- The organizational tokens of matcher.py lines 141-142, in regex alternation
order (no token is a case-insensitive prefix of another, so the order is inert). -/
def orgTokens : List (List Char) :=
  ["FC".data, "AC".data, "AS".data, "SC".data, "CF".data, "United".data, "City".data]

/-- Case-insensitive equality of character lists. -/
def lowersEq (a b : List Char) : Bool :=
  decide (a.map Char.toLower = b.map Char.toLower)

/-- One application of re.sub(prefix-token pattern, '', …): if the string starts
with a token (case-insensitively) followed by at least one whitespace, remove
the token and all following whitespace (the greedy \s+); otherwise unchanged. -/
def remTok (toks : List (List Char)) (l : List Char) : List Char :=
  match toks.find? (fun t =>
      lowersEq (l.take t.length) t &&
      (match l.drop t.length with
       | c :: _ => pyIsSpace c
       | [] => false)) with
  | some t => (l.drop t.length).dropWhile pyIsSpace
  | none => l

/-- re.sub(r'^(FC|AC|AS|SC|CF|United|City)\s+', '', team, IGNORECASE)
(matcher.py line 141). -/
def removeLeadingOrg (l : List Char) : List Char := remTok orgTokens l

/-- re.sub(r'\s+(FC|AC|AS|SC|CF|United|City)$', '', team, IGNORECASE)
(matcher.py line 142), realised as the prefix removal on the reversed string
with reversed tokens. -/
def removeTrailingOrg (l : List Char) : List Char :=
  (remTok (orgTokens.map List.reverse) l.reverse).reverse

/-- re.sub(r'[^\w\s]', ' ', team) (matcher.py line 145): non-word non-space
characters become blanks; word and whitespace characters are kept. -/
def despecial (l : List Char) : List Char :=
  l.map (fun c => if pyIsWord c || pyIsSpace c then c else ' ')

/-- re.sub(r'\s+', ' ', team) (matcher.py line 146): every maximal whitespace
run collapses to a single blank; the flag records whether the previous emitted
character closed a whitespace run. -/
def squeezeAux : Bool → List Char → List Char
  | _, [] => []
  | prevSpace, c :: cs =>
    if pyIsSpace c then
      if prevSpace then squeezeAux true cs
      else ' ' :: squeezeAux true cs
    else c :: squeezeAux false cs

/-- The rule-based cleanup of _normalize_team_name (matcher.py lines 137-148)
applied to an already stripped name: strip organizational prefix and suffix,
blank out punctuation, collapse whitespace, strip. -/
def cleanupTeam (l : List Char) : List Char :=
  stripChars (squeezeAux false (despecial (removeTrailingOrg (removeLeadingOrg l))))

/-- EventMatcher._normalize_team_name (match/matcher.py lines 125-148): strip,
then exact lookup in the teams map, then the esports-teams map; on a miss, the
rule-based cleanup. -/
def normalizeTeamName (teamsMap esportsMap : List (String × String))
    (teamName : String) : String :=
  match teamsMap.find? (fun kv => decide (kv.1.data = stripChars teamName.data)) with
  | some kv => kv.2
  | none =>
    match esportsMap.find? (fun kv => decide (kv.1.data = stripChars teamName.data)) with
    | some kv => kv.2
    | none => ⟨cleanupTeam (stripChars teamName.data)⟩

/-- The ordered separator patterns of _normalize_event_name (matcher.py line 106). -/
def sepList : List (List Char) :=
  [" vs ".data, " v ".data, " - ".data, " – ".data, " — ".data, " x ".data]

/-- Python event_name.split(sep, 1) when sep occurs: the parts before and after
the first occurrence of sep; none when sep does not occur. -/
def splitFirstAux (sep : List Char) : List Char → Option (List Char × List Char)
  | [] => none
  | c :: cs =>
    if sep.isPrefixOf (c :: cs) then some ([], (c :: cs).drop sep.length)
    else
      match splitFirstAux sep cs with
      | some pr => some (c :: pr.1, pr.2)
      | none => none

/-- EventMatcher._normalize_event_name (match/matcher.py lines 100-123): empty
names pass through; the first separator pattern present splits the name once
into two team parts, which are stripped, normalized and rejoined with " vs ";
with no separator the trimmed original is returned. -/
def normalizeEventName (teamsMap esportsMap : List (String × String))
    (eventName : String) : String :=
  if eventName = "" then eventName
  else
    match sepList.findSome? (fun sep => splitFirstAux sep eventName.data) with
    | some pr =>
        normalizeTeamName teamsMap esportsMap ⟨stripChars pr.1⟩ ++ " vs " ++
          normalizeTeamName teamsMap esportsMap ⟨stripChars pr.2⟩
    | none => ⟨stripChars eventName.data⟩

/-- C7 counterexample: normalization is not idempotent.  One pass over
"FC AC Milan" strips only the first organizational prefix, giving "AC Milan"; a
second pass strips again and gives "Milan".  The defect carries over to event
names: "FC AC Milan vs Arsenal" normalizes to "AC Milan vs Arsenal", which
renormalizes to "Milan vs Arsenal". -/
theorem c7_counterexample :
    normalizeTeamName [] [] "FC AC Milan" = "AC Milan" ∧
    normalizeTeamName [] [] (normalizeTeamName [] [] "FC AC Milan") = "Milan" ∧
    normalizeTeamName [] [] (normalizeTeamName [] [] "FC AC Milan") ≠
      normalizeTeamName [] [] "FC AC Milan" ∧
    normalizeEventName [] [] "FC AC Milan vs Arsenal" = "AC Milan vs Arsenal" ∧
    normalizeEventName [] [] (normalizeEventName [] [] "FC AC Milan vs Arsenal") ≠
      normalizeEventName [] [] "FC AC Milan vs Arsenal" := by decide

/-- No two adjacent whitespace characters. -/
def noAdjSpaces : List Char → Bool
  | [] => true
  | [_] => true
  | a :: b :: t => !(pyIsSpace a && pyIsSpace b) && noAdjSpaces (b :: t)

theorem noAdjSpaces_tail {c : Char} {l : List Char} (h : noAdjSpaces (c :: l) = true) :
    noAdjSpaces l = true := by
  cases l with
  | nil => rfl
  | cons b t =>
    have h' : (!(pyIsSpace c && pyIsSpace b) && noAdjSpaces (b :: t)) = true := h
    have h2 : (!(pyIsSpace c && pyIsSpace b)) = true ∧ noAdjSpaces (b :: t) = true := by
      simpa using h'
    exact h2.2

theorem mem_dropWhile {p : Char → Bool} :
    ∀ {l : List Char} {c : Char}, c ∈ l.dropWhile p → c ∈ l := by
  intro l
  induction l with
  | nil => intro c h; simpa using h
  | cons a t ih =>
    intro c h
    rw [List.dropWhile_cons] at h
    split at h
    · exact List.mem_cons_of_mem _ (ih h)
    · exact h

theorem mem_dropTrailingSpaces :
    ∀ {l : List Char} {c : Char}, c ∈ dropTrailingSpaces l → c ∈ l := by
  intro l
  induction l with
  | nil => intro c h; simpa [dropTrailingSpaces] using h
  | cons a t ih =>
    intro c h
    rw [dropTrailingSpaces] at h
    split at h
    · split at h
      · simp at h
      · rw [List.mem_singleton] at h
        exact h ▸ List.mem_cons_self _ _
    · rename_i r rs heq
      rcases List.mem_cons.mp h with rfl | h1
      · exact List.mem_cons_self _ _
      · exact List.mem_cons_of_mem _ (ih (heq ▸ h1))

theorem head?_dropTrailingSpaces :
    ∀ {l : List Char}, dropTrailingSpaces l ≠ [] →
      (dropTrailingSpaces l).head? = l.head? := by
  intro l
  cases l with
  | nil => intro h; rfl
  | cons a t =>
    intro hne
    rw [dropTrailingSpaces] at hne ⊢
    split at hne
    · split at hne <;> rename_i hcond
      · exact absurd rfl hne
      · rw [if_neg hcond]
        rfl
    · rfl

theorem dropWhile_head_not :
    ∀ (l : List Char) (c : Char), (l.dropWhile pyIsSpace).head? = some c →
      pyIsSpace c = false := by
  intro l
  induction l with
  | nil => intro c h; simp at h
  | cons a t ih =>
    intro c h
    rw [List.dropWhile_cons] at h
    split at h
    · exact ih c h
    · rename_i hns
      obtain rfl : a = c := by simpa using h
      simpa using hns

theorem dropWhile_eq_self_of_head :
    ∀ (l : List Char), (∀ c, l.head? = some c → pyIsSpace c = false) →
      l.dropWhile pyIsSpace = l := by
  intro l h
  cases l with
  | nil => rfl
  | cons a t =>
    rw [List.dropWhile_cons, if_neg (by simp [h a rfl])]

theorem dropTrailingSpaces_idem :
    ∀ (l : List Char), dropTrailingSpaces (dropTrailingSpaces l) = dropTrailingSpaces l := by
  intro l
  induction l with
  | nil => rfl
  | cons a t ih =>
    rw [dropTrailingSpaces]
    split
    · split
      · rfl
      · rename_i hns
        simp [dropTrailingSpaces, hns]
    · rename_i r rs heq
      have hr : dropTrailingSpaces (r :: rs) = r :: rs := by
        rw [← heq, ih]
      rw [dropTrailingSpaces, hr]

theorem stripChars_idem (l : List Char) : stripChars (stripChars l) = stripChars l := by
  unfold stripChars
  rw [dropWhile_eq_self_of_head (dropTrailingSpaces (l.dropWhile pyIsSpace)) ?hhead]
  · exact dropTrailingSpaces_idem _
  · intro c hc
    have hne : dropTrailingSpaces (l.dropWhile pyIsSpace) ≠ [] := by
      intro h0
      rw [h0] at hc
      simp at hc
    rw [head?_dropTrailingSpaces hne] at hc
    exact dropWhile_head_not l c hc

theorem mem_squeezeAux :
    ∀ {l : List Char} {b : Bool} {c : Char}, c ∈ squeezeAux b l →
      c = ' ' ∨ (pyIsSpace c = false ∧ c ∈ l) := by
  intro l
  induction l with
  | nil => intro b c h; simp [squeezeAux] at h
  | cons a t ih =>
    intro b c h
    rw [squeezeAux] at h
    split at h
    · split at h
      · rcases ih h with h1 | ⟨h1, h2⟩
        · exact Or.inl h1
        · exact Or.inr ⟨h1, List.mem_cons_of_mem _ h2⟩
      · rcases List.mem_cons.mp h with rfl | h1
        · exact Or.inl rfl
        · rcases ih h1 with h2 | ⟨h2, h3⟩
          · exact Or.inl h2
          · exact Or.inr ⟨h2, List.mem_cons_of_mem _ h3⟩
    · rename_i hns
      rcases List.mem_cons.mp h with rfl | h1
      · exact Or.inr ⟨by simpa using hns, List.mem_cons_self _ _⟩
      · rcases ih h1 with h2 | ⟨h2, h3⟩
        · exact Or.inl h2
        · exact Or.inr ⟨h2, List.mem_cons_of_mem _ h3⟩

theorem squeezeAux_true_head :
    ∀ (l : List Char) (c : Char), (squeezeAux true l).head? = some c →
      pyIsSpace c = false := by
  intro l
  induction l with
  | nil => intro c h; simp [squeezeAux] at h
  | cons a t ih =>
    intro c h
    rw [squeezeAux] at h
    split at h
    · rw [if_pos rfl] at h
      exact ih c h
    · rename_i hns
      obtain rfl : a = c := by simpa using h
      simpa using hns

theorem squeezeAux_noAdj : ∀ (l : List Char) (b : Bool),
    noAdjSpaces (squeezeAux b l) = true := by
  intro l
  induction l with
  | nil => intro b; rfl
  | cons a t ih =>
    intro b
    rw [squeezeAux]
    split
    · split
      · exact ih true
      · cases hout : squeezeAux true t with
        | nil => rfl
        | cons d ds =>
          have hd : pyIsSpace d = false :=
            squeezeAux_true_head t d (by rw [hout]; rfl)
          show (!(pyIsSpace ' ' && pyIsSpace d) && noAdjSpaces (d :: ds)) = true
          rw [hd, ← hout]
          simpa using ih true
    · rename_i hns
      cases hout : squeezeAux false t with
      | nil => rfl
      | cons d ds =>
        show (!(pyIsSpace a && pyIsSpace d) && noAdjSpaces (d :: ds)) = true
        rw [Bool.not_eq_true] at hns
        rw [hns, ← hout]
        simpa using ih false

theorem noAdj_dropWhile {l : List Char} (h : noAdjSpaces l = true) :
    noAdjSpaces (l.dropWhile pyIsSpace) = true := by
  induction l with
  | nil => rfl
  | cons a t ih =>
    rw [List.dropWhile_cons]
    split
    · exact ih (noAdjSpaces_tail h)
    · exact h

theorem noAdj_dropTrailingSpaces :
    ∀ {l : List Char}, noAdjSpaces l = true →
      noAdjSpaces (dropTrailingSpaces l) = true := by
  intro l
  induction l with
  | nil => intro h; rfl
  | cons a t ih =>
    intro h
    rw [dropTrailingSpaces]
    split
    · split
      · rfl
      · rfl
    · rename_i r rs heq
      have hne : dropTrailingSpaces t ≠ [] := by rw [heq]; simp
      have hb : t.head? = some r := by
        rw [← head?_dropTrailingSpaces hne, heq]
        rfl
      have hrest : noAdjSpaces (r :: rs) = true := by
        rw [← heq]
        exact ih (noAdjSpaces_tail h)
      have hpairA : (!(pyIsSpace a && pyIsSpace r)) = true := by
        cases t with
        | nil => simp at hb
        | cons x t2 =>
          have h' : (!(pyIsSpace a && pyIsSpace x) && noAdjSpaces (x :: t2)) = true := h
          have h2 : (!(pyIsSpace a && pyIsSpace x)) = true ∧
              noAdjSpaces (x :: t2) = true := by simpa using h'
          have hx : x = r := by simpa using hb
          rw [← hx]
          exact h2.1
      show (!(pyIsSpace a && pyIsSpace r) && noAdjSpaces (r :: rs)) = true
      rw [Bool.and_eq_true]
      exact ⟨hpairA, hrest⟩

theorem squeezeAux_id :
    ∀ (l : List Char), noAdjSpaces l = true →
      (∀ c ∈ l, pyIsSpace c = true → c = ' ') →
      squeezeAux false l = l ∧
        ((∀ c, l.head? = some c → pyIsSpace c = false) → squeezeAux true l = l) := by
  intro l
  induction l with
  | nil => intro _ _; exact ⟨rfl, fun _ => rfl⟩
  | cons a t ih =>
    intro hadj hblank
    have iht := ih (noAdjSpaces_tail hadj)
      (fun c hc hs => hblank c (List.mem_cons_of_mem _ hc) hs)
    by_cases ha : pyIsSpace a = true
    · have ha' : a = ' ' := hblank a (List.mem_cons_self _ _) ha
      have hthead : ∀ c, t.head? = some c → pyIsSpace c = false := by
        intro c hc
        cases t with
        | nil => simp at hc
        | cons b t2 =>
          have hbc : b = c := by simpa using hc
          have h' : (!(pyIsSpace a && pyIsSpace b) && noAdjSpaces (b :: t2)) = true := hadj
          have h2 : (!(pyIsSpace a && pyIsSpace b)) = true ∧
              noAdjSpaces (b :: t2) = true := by simpa using h'
          have h3 := h2.1
          rw [ha] at h3
          rw [← hbc]
          simpa using h3
      refine ⟨?_, ?_⟩
      · rw [squeezeAux, if_pos ha, if_neg (by simp)]
        rw [iht.2 hthead, ha']
      · intro hhead
        exact absurd (hhead a rfl) (by simp [ha])
    · have ha' : pyIsSpace a = false := by simpa using ha
      refine ⟨?_, ?_⟩
      · rw [squeezeAux, if_neg (by simp [ha']), iht.1]
      · intro _
        rw [squeezeAux, if_neg (by simp [ha']), iht.1]

theorem cleanupTeam_chars (y : List Char) (c : Char) (h : c ∈ cleanupTeam y) :
    (pyIsWord c || pyIsSpace c) = true ∧ (pyIsSpace c = true → c = ' ') := by
  unfold cleanupTeam stripChars at h
  have h1 : c ∈ squeezeAux false (despecial (removeTrailingOrg (removeLeadingOrg y))) :=
    mem_dropWhile (mem_dropTrailingSpaces h)
  rcases mem_squeezeAux h1 with rfl | ⟨hns, hmem⟩
  · exact ⟨by decide, fun _ => rfl⟩
  · have hw : (pyIsWord c || pyIsSpace c) = true := by
      unfold despecial at hmem
      obtain ⟨d, _, hdc⟩ := List.mem_map.mp hmem
      split at hdc
      · exact hdc ▸ (by assumption)
      · rw [← hdc]
        decide
    exact ⟨hw, fun hs => absurd hs (by simp [hns])⟩

theorem despecial_id :
    ∀ (l : List Char), (∀ c ∈ l, (pyIsWord c || pyIsSpace c) = true) →
      despecial l = l := by
  intro l
  induction l with
  | nil => intro _; rfl
  | cons a t ih =>
    intro h
    have hstep : despecial (a :: t) =
        (if pyIsWord a || pyIsSpace a then a else ' ') :: despecial t := rfl
    rw [hstep, if_pos (h a (List.mem_cons_self _ _)),
      ih (fun c hc => h c (List.mem_cons_of_mem _ hc))]

theorem cleanupTeam_noAdj (y : List Char) : noAdjSpaces (cleanupTeam y) = true :=
  noAdj_dropTrailingSpaces (noAdj_dropWhile (squeezeAux_noAdj _ false))

theorem cleanupTeam_strip (y : List Char) :
    stripChars (cleanupTeam y) = cleanupTeam y :=
  stripChars_idem (squeezeAux false (despecial (removeTrailingOrg (removeLeadingOrg y))))

theorem cleanupTeam_squeeze (y : List Char) :
    squeezeAux false (cleanupTeam y) = cleanupTeam y :=
  (squeezeAux_id (cleanupTeam y) (cleanupTeam_noAdj y)
    (fun c hc => (cleanupTeam_chars y c hc).2)).1

theorem cleanupTeam_despecial (y : List Char) :
    despecial (cleanupTeam y) = cleanupTeam y :=
  despecial_id _ (fun c hc => (cleanupTeam_chars y c hc).1)

/-- C7 (amended): with an empty normalization dictionary, team-name
normalization is idempotent exactly on the names whose normalized form is left
unchanged by the leading- and trailing-organizational-token strip — for such
names a second normalization pass returns the name unchanged (the remaining
cleanup stages — strip, punctuation blanking, whitespace collapse — are always
idempotent on normalizer output, as the supporting lemmas show). -/
theorem c7_normalize_idempotent_without_boundary_tokens (s : String)
    (hL : removeLeadingOrg (normalizeTeamName [] [] s).data =
      (normalizeTeamName [] [] s).data)
    (hT : removeTrailingOrg (normalizeTeamName [] [] s).data =
      (normalizeTeamName [] [] s).data) :
    normalizeTeamName [] [] (normalizeTeamName [] [] s) =
      normalizeTeamName [] [] s := by
  have hdef : normalizeTeamName [] [] s = ⟨cleanupTeam (stripChars s.data)⟩ := rfl
  have hdata : (normalizeTeamName [] [] s).data = cleanupTeam (stripChars s.data) := by
    rw [hdef]
  have hL' : removeLeadingOrg (cleanupTeam (stripChars s.data)) =
      cleanupTeam (stripChars s.data) := by rw [← hdata]; exact hL
  have hT' : removeTrailingOrg (cleanupTeam (stripChars s.data)) =
      cleanupTeam (stripChars s.data) := by rw [← hdata]; exact hT
  have h2 : normalizeTeamName [] [] (normalizeTeamName [] [] s) =
      ⟨cleanupTeam (stripChars (normalizeTeamName [] [] s).data)⟩ := rfl
  have hlist : cleanupTeam (stripChars (cleanupTeam (stripChars s.data))) =
      cleanupTeam (stripChars s.data) := by
    rw [cleanupTeam_strip]
    have h3 : cleanupTeam (cleanupTeam (stripChars s.data)) =
        stripChars (squeezeAux false (despecial (removeTrailingOrg
          (removeLeadingOrg (cleanupTeam (stripChars s.data)))))) := rfl
    rw [h3, hL', hT', cleanupTeam_despecial, cleanupTeam_squeeze, cleanupTeam_strip]
  rw [h2, hdata, hlist, hdef]

/-- Witness for the amended C7: "Real  Madrid!!" normalizes to "Real Madrid",
which has no boundary organizational token, and renormalizing returns it
unchanged. -/
theorem c7_normalize_idempotent_witness :
    normalizeTeamName [] [] (normalizeTeamName [] [] "Real  Madrid!!") =
      normalizeTeamName [] [] "Real  Madrid!!" :=
  c7_normalize_idempotent_without_boundary_tokens "Real  Madrid!!" (by decide) (by decide)
